import Mathlib

/-!
Verification of `helpers.py` from the Cavity_Model_Demo repository.

The file embeds the five helper functions whose logic the specification
describes — `_train_val_split`, `_eval_loop`, `_train_loop`,
`_populate_dfs_with_resenvs` and `_populate_dfs_with_nlls_and_nlfs` — as
executable Lean definitions.  Floating-point values are modelled as
rationals; a Python `NaN` cell is modelled as `Option.none`; Python
exceptions (`KeyError`, `IndexError`) are modelled with `Except`.
-/

namespace CavityModel

/-- The Python builtin `int()` applied to a float: truncation toward zero. -/
def pyInt (q : ℚ) : ℤ := if 0 ≤ q then ⌊q⌋ else ⌈q⌉

/-- Python list slicing `xs[:n]`: a negative `n` counts from the end,
clamping at the list boundaries. -/
def pySliceTo (xs : List α) (n : ℤ) : List α :=
  if 0 ≤ n then xs.take n.toNat else xs.take ((xs.length : ℤ) + n).toNat

/-- Python list slicing `xs[n:]`. -/
def pySliceFrom (xs : List α) (n : ℤ) : List α :=
  if 0 ≤ n then xs.drop n.toNat else xs.drop ((xs.length : ℤ) + n).toNat

/-- Source function `_train_val_split`, lines 27-29 of `helpers.py`: the division of the
ordered pdb filename list into the train and validation groups.
`n_train_pdbs = int(len(parsed_pdb_filenames) * TRAIN_VAL_SPLIT)`,
`filenames_train = parsed_pdb_filenames[:n_train_pdbs]`,
`filenames_val = parsed_pdb_filenames[n_train_pdbs:]`.
The wrapping of each group in a Dataset/DataLoader is external. -/
def _train_val_split (parsed_pdb_filenames : List String)
    (TRAIN_VAL_SPLIT : ℚ) : List String × List String :=
  let n_train_pdbs : ℤ := pyInt ((parsed_pdb_filenames.length : ℚ) * TRAIN_VAL_SPLIT)
  (pySliceTo parsed_pdb_filenames n_train_pdbs,
   pySliceFrom parsed_pdb_filenames n_train_pdbs)

/-- Lines 291-294 of `helpers.py`: the baseline ddG statistic added as the
`ddg_pred_no_ds` column,
`row["mt_nll"] - row["mt_nlf"] - row["wt_nll"] + row["wt_nlf"]`. -/
def ddg_pred_no_ds (wt_nll mt_nll wt_nlf mt_nlf : ℚ) : ℚ :=
  mt_nll - mt_nlf - wt_nll + wt_nlf

/-- The Python string slice `s[1:-1]`: the string with its first and its
last character removed. -/
def pySlice1toNeg1 (s : String) : String := ⟨(s.data.drop 1).dropLast⟩

/-- Lines 202-205 of `helpers.py`: the residue-environment lookup key,
an f-string concatenating pdbid, chainid, an underscore, the slice
`variant[1:-1]` and the character `variant[0]`.  Python raises
`IndexError` on `variant[0]` when the variant string is empty (modelled
as `none`). -/
def resenvKey (pdbid chainid variant : String) : Option String :=
  match variant.data.head? with
  | none => none
  | some c => some (pdbid ++ chainid ++ "_" ++ pySlice1toNeg1 variant ++ ⟨[c]⟩)

/-- Python exceptions raised by the helper functions: `IndexError` from
indexing an empty variant string, `KeyError` from `one_to_index` or from
the final checkpoint-map lookup of `_train_loop`. -/
inductive PyErr
  | indexError
  | keyError
deriving DecidableEq, Repr

/-- Lookup of a character in a list, returning its position: the model of
indexing the Biopython dictionary `d1_to_index`. -/
def indexIn (c : Char) : List Char → Option ℕ
  | [] => none
  | d :: ds => if d = c then some 0 else (indexIn c ds).map (· + 1)

/-- The Biopython amino-acid one-letter alphabet, alphabetical by
one-letter code: the index order used by `one_to_index`. -/
def aa1 : List Char := "ACDEFGHIKLMNPQRSTVWY".data

/-- `Bio.PDB.Polypeptide.one_to_index`: the index of a one-letter
amino-acid code in the 20-letter alphabet; a `KeyError` (here `none`) on
any other character. -/
def one_to_index (c : Char) : Option ℕ := indexIn c aa1

/-- One row of a mutation-effect table (a pandas DataFrame row).  The
columns `pdbid`, `chainid` and `variant` are the ones the code reads;
`extra` models the remaining numeric columns of the table (for example
measured ddG values), where `none` models a `NaN` cell.  The `extra`
column matters because line 217 of `helpers.py` calls
`df.dropna(inplace=True)`, which drops a row containing `NaN` in ANY
column, not only in the freshly added `resenv` column. -/
structure MutRow where
  pdbid : String
  chainid : String
  variant : String
  extra : List (Option ℚ)
deriving DecidableEq, Repr

/-- A surviving row after `_populate_dfs_with_resenvs`: the original row
with the matched residue environment and the `wt_idx`/`mt_idx` columns. -/
structure ARow (ρ : Type) where
  row : MutRow
  resenv : ρ
  wt_idx : ℕ
  mt_idx : ℕ
deriving DecidableEq, Repr

/-- Whether `needle` occurs at the start of `hay`. -/
def startsWithChars : List Char → List Char → Bool
  | [], _ => true
  | _ :: _, [] => false
  | a :: as, b :: bs => a = b && startsWithChars as bs

/-- Whether `needle` occurs somewhere in `hay`. -/
def subAt (needle : List Char) : List Char → Bool
  | [] => needle.isEmpty
  | c :: cs => startsWithChars needle (c :: cs) || subAt needle cs

/-- The Python substring test `needle in hay`. -/
def containsSub (needle hay : String) : Bool := subAt needle.data hay.data

/-- Lines 207-210 of `helpers.py`: the ad-hoc dataset-name fix — a dataset
key containing the substring `"symmetric"` resolves to the shared
`"symmetric"` environment lookup. -/
def adhocFixKey (ddg_data_key : String) : String :=
  if containsSub "symmetric" ddg_data_key then "symmetric" else ddg_data_key

/-- Lines 202-214 of `helpers.py`, one iteration of the row loop: build the
lookup key (an `IndexError` on an empty variant escapes the `try`), then
look the key up in the per-dataset environment lookup.  A `KeyError` from
either the dataset-name lookup or the key lookup is caught and recorded as
`np.nan` (here `none`). -/
def rowResenv (resenv_datasets_look_up : String → Option (String → Option ρ))
    (ddg_data_key : String) (row : MutRow) : Except PyErr (Option ρ) :=
  match resenvKey row.pdbid row.chainid row.variant with
  | none => .error .indexError
  | some key =>
      .ok ((resenv_datasets_look_up (adhocFixKey ddg_data_key)).bind (fun ds => ds key))

/-- Sequential effectful map, failing at the first
error: the model of a Python loop (or a pandas row-wise `apply`) that can
raise. -/
def exceptMap (f : α → Except ε β) : List α → Except ε (List β)
  | [] => .ok []
  | x :: xs => do
    let y ← f x
    let ys ← exceptMap f xs
    return y :: ys

/-- The Python indexing `s[0]`: `IndexError` on an empty string. -/
def pyFirstChar (s : String) : Except PyErr Char :=
  match s.data.head? with
  | none => .error .indexError
  | some c => .ok c

/-- The Python indexing `s[-1]`: `IndexError` on an empty string. -/
def pyLastChar (s : String) : Except PyErr Char :=
  match s.data.getLast? with
  | none => .error .indexError
  | some c => .ok c

/-- Lines 225-230 of `helpers.py` for one surviving row: `wt_idx` from the
first and `mt_idx` from the last character of the variant string via
`one_to_index`; an unknown letter raises a `KeyError` that is NOT caught
(the `try` block has ended). -/
def rowIdxs (row : MutRow) : Except PyErr (ℕ × ℕ) := do
  let wt ← pyFirstChar row.variant
  let mt ← pyLastChar row.variant
  match one_to_index wt, one_to_index mt with
  | some wi, some mi => return (wi, mi)
  | _, _ => .error .keyError

/-- Line 217 of `helpers.py`: the row-keeping test of
`df.dropna(inplace=True)` applied after the `resenv` column was added — a
row survives iff its `resenv` cell is not `NaN` AND no other cell of the
row is `NaN`. -/
def keepRow (row : MutRow) (resenv : Option ρ) : Option (MutRow × ρ) :=
  match resenv with
  | some e => if row.extra.all Option.isSome then some (row, e) else none
  | none => none

/-- One surviving row with its environment, extended with the `wt_idx` and
`mt_idx` columns (lines 225-230 of `helpers.py`). -/
def scoreRow (p : MutRow × ρ) : Except PyErr (ARow ρ) := do
  let idxs ← rowIdxs p.1
  return ⟨p.1, p.2, idxs.1, idxs.2⟩

/-- Lines 199-230 of `helpers.py` for a single dataset: attach residue
environments to every row, drop the rows `dropna` removes, then add the
`wt_idx` and `mt_idx` columns to the surviving rows. -/
def populateDataset (resenv_datasets_look_up : String → Option (String → Option ρ))
    (ddg_data_key : String) (rows : List MutRow) : Except PyErr (List (ARow ρ)) := do
  let resenvs ← exceptMap (rowResenv resenv_datasets_look_up ddg_data_key) rows
  let survived := (rows.zip resenvs).filterMap (fun p => keepRow p.1 p.2)
  exceptMap scoreRow survived

/-- Whether the `wt_idx`/`mt_idx` computation succeeds on a row: the
variant string is non-empty and its first and last characters are letters
of the 20-letter alphabet. -/
def rowIdxsOk (r : MutRow) : Bool :=
  match rowIdxs r with
  | .ok _ => true
  | .error _ => false

/-- Source function `_populate_dfs_with_resenvs` (lines 188-230 of
`helpers.py`): Stage A of the ddG enrichment over the whole
dataset-name-to-table dictionary. -/
def _populate_dfs_with_resenvs
    (resenv_datasets_look_up : String → Option (String → Option ρ))
    (ddg_data_dict : List (String × List MutRow)) :
    Except PyErr (List (String × List (ARow ρ))) :=
  exceptMap (fun p => do
    let out ← populateDataset resenv_datasets_look_up p.1 p.2
    return (p.1, out)) ddg_data_dict

/-- Whether the environment lookup of a row misses (the key is absent, or
the whole dataset name is absent from the lookup dictionary). -/
def isLookupMiss (resenv_datasets_look_up : String → Option (String → Option ρ))
    (ddg_data_key : String) (r : MutRow) : Bool :=
  match rowResenv resenv_datasets_look_up ddg_data_key r with
  | .ok none => true
  | _ => false

/-- The number of rows of a dataset whose environment lookup misses. -/
def nLookupMisses (resenv_datasets_look_up : String → Option (String → Option ρ))
    (ddg_data_key : String) (rows : List MutRow) : ℕ :=
  (rows.filter (isLookupMiss resenv_datasets_look_up ddg_data_key)).length

/-- `np.mean` of a list of rationals: `NaN` (here `none`) on the empty
list. -/
def npMean (xs : List ℚ) : Option ℚ :=
  if xs.length = 0 then none else some (xs.sum / xs.length)

/-- The flattened-equality count of lines 112-114 of `helpers.py`: how many
positions of the two flattened label streams agree. -/
def nCorrect (ts ps : List ℕ) : ℕ :=
  ((ts.zip ps).filter (fun p => p.1 == p.2)).length

/-- Source function `_eval_loop` (lines 87-116 of `helpers.py`).  A batch
is a list of samples of type `α`; `target` gives the argmax of the one-hot
label of a sample and `net` the argmax of the model output (the model is
not updated during evaluation, so both are fixed functions);  `batchLoss`
is the scalar cross-entropy loss of one batch.  The accuracy is
`np.mean(np.reshape(labels_true_val, -1) == np.reshape(labels_pred_val, -1))`
— the per-batch label arrays are flattened (concatenated) before
comparison — and the loss is the plain mean of the per-batch losses. -/
def _eval_loop (net target : α → ℕ) (batchLoss : List α → ℚ)
    (batches : List (List α)) : Option ℚ × Option ℚ :=
  let labels_true_val := (batches.map (fun b => b.map target)).flatten
  let labels_pred_val := (batches.map (fun b => b.map net)).flatten
  let acc_val := npMean ((labels_true_val.zip labels_pred_val).map
    (fun p => if p.1 == p.2 then 1 else 0))
  let loss_val := npMean (batches.map batchLoss)
  (acc_val, loss_val)

/-- The mutable state of `_train_loop` (lines 128-131 of `helpers.py`):
best epoch index (`-1` sentinel), best validation loss (`1e4` sentinel),
patience counter, and the append-only epoch-to-checkpoint-path map. -/
structure TLState where
  current_best_epoch_idx : ℤ
  current_best_loss_val : ℚ
  patience : ℕ
  epoch_idx_to_model_path : List (ℤ × String)
deriving DecidableEq, Repr

/-- Lines 128-131 of `helpers.py`: the initial train-loop state. -/
def initTLState : TLState := ⟨-1, 10000, 0, []⟩

/-- Two-digit zero-padded decimal, the Python format `{epoch:02d}`. -/
def pad2 (n : ℕ) : String := if n < 10 then "0" ++ toString n else toString n

/-- Line 164 of `helpers.py`: the checkpoint path
`f"cavity_models/model_epoch_{epoch:02d}.pt"`. -/
def modelPath (epoch : ℕ) : String :=
  "cavity_models/model_epoch_" ++ pad2 epoch ++ ".pt"

/-- One epoch of `_train_loop` (lines 163-174 of `helpers.py`) after the
gradient updates: record the checkpoint path, then the early-stopping
update.  `valLoss epoch` is the validation loss `_eval_loop` returns for
this epoch (`none` models `NaN`; the Python comparison `NaN < x` is
`False`, so a `NaN` loss takes the non-improving branch). -/
def epochStep (valLoss : ℕ → Option ℚ) (epoch : ℕ) (s : TLState) : TLState :=
  let s1 := { s with epoch_idx_to_model_path :=
    s.epoch_idx_to_model_path ++ [((epoch : ℤ), modelPath epoch)] }
  match valLoss epoch with
  | some loss_val =>
      if loss_val < s1.current_best_loss_val then
        { s1 with current_best_loss_val := loss_val,
                  current_best_epoch_idx := (epoch : ℤ),
                  patience := 0 }
      else
        { s1 with patience := s1.patience + 1 }
  | none => { s1 with patience := s1.patience + 1 }

/-- The epoch loop of `_train_loop` (lines 132-177 of `helpers.py`):
starting at epoch `e` with `n` epochs remaining, run epochs until the
range is exhausted or `patience > PATIENCE_CUTOFF` breaks the loop. -/
def runEpochs (valLoss : ℕ → Option ℚ) (PATIENCE_CUTOFF : ℤ) :
    ℕ → ℕ → TLState → TLState
  | _, 0, s => s
  | e, n + 1, s =>
      let s2 := epochStep valLoss e s
      if PATIENCE_CUTOFF < (s2.patience : ℤ) then s2
      else runEpochs valLoss PATIENCE_CUTOFF (e + 1) n s2

/-- Source function `_train_loop` (lines 119-185 of `helpers.py`): run the
epoch loop from the initial state, then look the best epoch index up in
the checkpoint map (line 179); a missing key is a Python `KeyError`. -/
def _train_loop (valLoss : ℕ → Option ℚ) (EPOCHS : ℕ) (PATIENCE_CUTOFF : ℤ) :
    Except PyErr String :=
  let s := runEpochs valLoss PATIENCE_CUTOFF 0 EPOCHS initTLState
  match s.epoch_idx_to_model_path.lookup s.current_best_epoch_idx with
  | some best_model_path => .ok best_model_path
  | none => .error .keyError

/-- The state of the unbounded epoch trace after `n` epochs, ignoring the
early-stopping break: the reference trajectory the loop follows while it
runs. -/
def stAfter (valLoss : ℕ → Option ℚ) : ℕ → TLState
  | 0 => initTLState
  | e + 1 => epochStep valLoss e (stAfter valLoss e)

/-- Whether epoch `e` of the trace strictly improves on the best validation
loss so far. -/
def improv (valLoss : ℕ → Option ℚ) (e : ℕ) : Bool :=
  match valLoss e with
  | some x => decide (x < (stAfter valLoss e).current_best_loss_val)
  | none => false

/-- Whether the early-stopping break fires at the end of epoch `e`. -/
def broke (valLoss : ℕ → Option ℚ) (PATIENCE_CUTOFF : ℤ) (e : ℕ) : Bool :=
  decide (PATIENCE_CUTOFF < ((stAfter valLoss (e + 1)).patience : ℤ))

/-- How many of the `n` epochs starting at `a` the loop actually runs
before the break (or the exhaustion of the range) stops it. -/
def epochsRunFrom (valLoss : ℕ → Option ℚ) (PATIENCE_CUTOFF : ℤ) :
    ℕ → ℕ → ℕ
  | _, 0 => 0
  | a, n + 1 =>
      if broke valLoss PATIENCE_CUTOFF a then 1
      else 1 + epochsRunFrom valLoss PATIENCE_CUTOFF (a + 1) n

/-- The number of epochs `_train_loop` runs. -/
def epochsRun (valLoss : ℕ → Option ℚ) (PATIENCE_CUTOFF : ℤ) (EPOCHS : ℕ) : ℕ :=
  epochsRunFrom valLoss PATIENCE_CUTOFF 0 EPOCHS

/-- The checkpoint map holding the epochs `0, ..., n - 1`. -/
def ckptMap (n : ℕ) : List (ℤ × String) :=
  (List.range n).map (fun e : ℕ => ((e : ℤ), modelPath e))

/-- A concrete validation-loss sequence: epoch 0 improves to loss `5`,
every later epoch has loss `7` and does not improve. -/
def vLossW : ℕ → Option ℚ := fun n => if n = 0 then some 5 else some 7

/-- A one-dataset environment lookup used as a concrete counterexample
input: dataset `"ds"` maps the key `"1ABCA_1A"` to the environment `0`. -/
def lkC3 : String → Option (String → Option ℕ) :=
  fun k => if k = "ds" then some (fun key => if key = "1ABCA_1A" then some 0 else none)
    else none

/-- A mutation-table row whose environment lookup HITS but whose `extra`
column holds a `NaN` (for example a missing measured ddG value). -/
def rowC3 : MutRow := ⟨"1ABC", "A", "A1G", [none]⟩

/-- A concrete environment-lookup dictionary defining only the shared
`"symmetric"` dataset. -/
def lkAw : String → Option (String → Option ℕ) :=
  fun k => if k = "symmetric" then some (fun key => if key = "1ABCA_1A" then some 7 else none)
    else none

/-- A second dictionary agreeing with `lkAw` at `"symmetric"` but differing
everywhere else. -/
def lkBw : String → Option (String → Option ℕ) :=
  fun k => if k = "symmetric" then some (fun key => if key = "1ABCA_1A" then some 7 else none)
    else some (fun _ => some 0)

/-- A concrete one-row mutation table. -/
def rowsW : List MutRow := [⟨"1ABC", "A", "A1G", []⟩]

/-- A dictionary defining only the dataset `"guerois"`. -/
def lkCw : String → Option (String → Option ℕ) :=
  fun k => if k = "guerois" then some (fun _ => some 1) else none

/-- A dictionary agreeing with `lkCw` at `"guerois"` but differing
everywhere else. -/
def lkDw : String → Option (String → Option ℕ) :=
  fun k => if k = "guerois" then some (fun _ => some 1) else some (fun _ => some 2)

/-! ## Train-loop trace lemmas -/

theorem stAfter_succ (valLoss : ℕ → Option ℚ) (e : ℕ) :
    stAfter valLoss (e + 1) = epochStep valLoss e (stAfter valLoss e) := rfl

/-- The bounded loop follows the unbounded trace for exactly
`epochsRunFrom` epochs. -/
theorem runEpochs_eq_stAfter (valLoss : ℕ → Option ℚ) (cutoff : ℤ) :
    ∀ (n a : ℕ), runEpochs valLoss cutoff a n (stAfter valLoss a) =
      stAfter valLoss (a + epochsRunFrom valLoss cutoff a n) := by
  intro n
  induction n with
  | zero => intro a; simp [runEpochs, epochsRunFrom]
  | succ n ih =>
      intro a
      by_cases hb : cutoff < (((stAfter valLoss (a + 1)).patience : ℤ))
      · simp [runEpochs, epochsRunFrom, broke, hb, ← stAfter_succ]
      · have : a + (1 + epochsRunFrom valLoss cutoff (a + 1) n) =
            (a + 1) + epochsRunFrom valLoss cutoff (a + 1) n := by omega
        simp [runEpochs, epochsRunFrom, broke, hb, ← stAfter_succ, this, ih (a + 1)]

/-- The final state of the epoch loop of `_train_loop`. -/
theorem finalState_eq (valLoss : ℕ → Option ℚ) (cutoff : ℤ) (EPOCHS : ℕ) :
    runEpochs valLoss cutoff 0 EPOCHS initTLState =
      stAfter valLoss (epochsRun valLoss cutoff EPOCHS) := by
  have h := runEpochs_eq_stAfter valLoss cutoff EPOCHS 0
  simpa [epochsRun, stAfter] using h

/-- The patience transition of one epoch: an improving epoch resets
patience to `0`, a non-improving epoch increments it. -/
theorem patience_step (valLoss : ℕ → Option ℚ) (e : ℕ) :
    (improv valLoss e = true → (stAfter valLoss (e + 1)).patience = 0)
    ∧ (improv valLoss e = false →
        (stAfter valLoss (e + 1)).patience = (stAfter valLoss e).patience + 1) := by
  constructor
  · intro hi
    cases hv : valLoss e with
    | none => simp [improv, hv] at hi
    | some x =>
        by_cases hlt : x < (stAfter valLoss e).current_best_loss_val
        · simp [stAfter_succ, epochStep, hv, hlt]
        · simp [improv, hv, hlt] at hi
  · intro hi
    cases hv : valLoss e with
    | none => simp [stAfter_succ, epochStep, hv]
    | some x =>
        by_cases hlt : x < (stAfter valLoss e).current_best_loss_val
        · simp [improv, hv, hlt] at hi
        · simp [stAfter_succ, epochStep, hv, hlt]

/-- A non-improving epoch changes neither the best loss nor the best epoch
index. -/
theorem nonimprov_keeps (valLoss : ℕ → Option ℚ) (e : ℕ)
    (hi : improv valLoss e = false) :
    (stAfter valLoss (e + 1)).current_best_loss_val =
      (stAfter valLoss e).current_best_loss_val
    ∧ (stAfter valLoss (e + 1)).current_best_epoch_idx =
      (stAfter valLoss e).current_best_epoch_idx := by
  cases hv : valLoss e with
  | none => simp [stAfter_succ, epochStep, hv]
  | some x =>
      by_cases hlt : x < (stAfter valLoss e).current_best_loss_val
      · simp [improv, hv, hlt] at hi
      · simp [stAfter_succ, epochStep, hv, hlt]

/-- An improving epoch records its own index and its own loss as the new
best. -/
theorem improv_updates (valLoss : ℕ → Option ℚ) (e : ℕ)
    (hi : improv valLoss e = true) :
    valLoss e = some ((stAfter valLoss (e + 1)).current_best_loss_val)
    ∧ (stAfter valLoss (e + 1)).current_best_loss_val <
        (stAfter valLoss e).current_best_loss_val
    ∧ (stAfter valLoss (e + 1)).current_best_epoch_idx = (e : ℤ) := by
  cases hv : valLoss e with
  | none => simp [improv, hv] at hi
  | some x =>
      by_cases hlt : x < (stAfter valLoss e).current_best_loss_val
      · simp [stAfter_succ, epochStep, hv, hlt]
      · simp [improv, hv, hlt] at hi

/-- The recorded best validation loss never increases from one epoch to the
next. -/
theorem best_mono_succ (valLoss : ℕ → Option ℚ) (e : ℕ) :
    (stAfter valLoss (e + 1)).current_best_loss_val ≤
      (stAfter valLoss e).current_best_loss_val := by
  by_cases hi : improv valLoss e
  · exact le_of_lt (improv_updates valLoss e hi).2.1
  · exact le_of_eq (nonimprov_keeps valLoss e (Bool.of_not_eq_true hi ▸ rfl)).1

/-- The recorded best loss is a lower bound on every observed (non-`NaN`)
validation loss so far. -/
theorem best_le_observed (valLoss : ℕ → Option ℚ) :
    ∀ (n e : ℕ), e < n → ∀ x, valLoss e = some x →
      (stAfter valLoss n).current_best_loss_val ≤ x := by
  intro n
  induction n with
  | zero => omega
  | succ n ih =>
      intro e he x hx
      rcases Nat.lt_succ_iff_lt_or_eq.mp he with h | h
      · exact le_trans (best_mono_succ valLoss n) (ih e h x hx)
      · subst h
        by_cases hi : improv valLoss e
        · have h1 := (improv_updates valLoss e hi).1
          rw [hx] at h1
          exact le_of_eq (Option.some_injective ℚ h1).symm
        · have hi' : improv valLoss e = false := by simpa using hi
          have hk := (nonimprov_keeps valLoss e hi').1
          rw [hk]
          have : ¬ x < (stAfter valLoss e).current_best_loss_val := by
            intro hlt
            exact hi (by simp [improv, hx, hlt])
          exact le_of_not_lt this

/-- The checkpoint map after `n` epochs of the trace. -/
theorem ckpts_eq (valLoss : ℕ → Option ℚ) :
    ∀ n : ℕ, (stAfter valLoss n).epoch_idx_to_model_path = ckptMap n := by
  intro n
  induction n with
  | zero => rfl
  | succ n ih =>
      have hsucc : (stAfter valLoss (n + 1)).epoch_idx_to_model_path =
          (stAfter valLoss n).epoch_idx_to_model_path ++ [((n : ℤ), modelPath n)] := by
        cases hv : valLoss n with
        | none => simp [stAfter_succ, epochStep, hv]
        | some x =>
            by_cases hlt : x < (stAfter valLoss n).current_best_loss_val <;>
              simp [stAfter_succ, epochStep, hv, hlt]
      rw [hsucc, ih, ckptMap, ckptMap, List.range_succ, List.map_append]
      rfl

/-- Either no epoch so far improved and the best index and loss still hold
their sentinels, or the best index names an improving epoch whose loss is
the recorded best. -/
theorem best_idx_inv (valLoss : ℕ → Option ℚ) :
    ∀ n : ℕ,
      ((∀ e, e < n → improv valLoss e = false)
        ∧ (stAfter valLoss n).current_best_epoch_idx = -1
        ∧ (stAfter valLoss n).current_best_loss_val = 10000)
      ∨ (∃ b, b < n ∧ (stAfter valLoss n).current_best_epoch_idx = (b : ℤ)
          ∧ valLoss b = some ((stAfter valLoss n).current_best_loss_val)) := by
  intro n
  induction n with
  | zero => exact Or.inl ⟨by omega, rfl, rfl⟩
  | succ n ih =>
      by_cases hi : improv valLoss n
      · obtain ⟨h1, _h2, h3⟩ := improv_updates valLoss n hi
        exact Or.inr ⟨n, Nat.lt_succ_self n, h3, h1⟩
      · have hi' : improv valLoss n = false := by simpa using hi
        obtain ⟨hkl, hki⟩ := nonimprov_keeps valLoss n hi'
        rcases ih with ⟨ha, hb, hc⟩ | ⟨b, hb1, hb2, hb3⟩
        · refine Or.inl ⟨?_, by rw [hki]; exact hb, by rw [hkl]; exact hc⟩
          intro e he
          rcases Nat.lt_succ_iff_lt_or_eq.mp he with h | h
          · exact ha e h
          · subst h; exact hi'
        · exact Or.inr ⟨b, Nat.lt_succ_of_lt hb1, by rw [hki]; exact hb2,
            by rw [hkl]; exact hb3⟩

theorem epochsRunFrom_le (valLoss : ℕ → Option ℚ) (cutoff : ℤ) :
    ∀ (n a : ℕ), epochsRunFrom valLoss cutoff a n ≤ n := by
  intro n
  induction n with
  | zero => intro a; simp [epochsRunFrom]
  | succ n ih =>
      intro a
      cases hb : broke valLoss cutoff a with
      | true => simp [epochsRunFrom, hb]
      | false =>
          have := ih (a + 1)
          simp [epochsRunFrom, hb]
          omega

theorem epochsRunFrom_pos (valLoss : ℕ → Option ℚ) (cutoff : ℤ) (a n : ℕ)
    (hn : 0 < n) : 0 < epochsRunFrom valLoss cutoff a n := by
  cases n with
  | zero => omega
  | succ n =>
      cases hb : broke valLoss cutoff a with
      | true => simp [epochsRunFrom, hb]
      | false => simp [epochsRunFrom, hb]

/-- While the loop keeps running, the break condition has not fired. -/
theorem not_broke_of_running (valLoss : ℕ → Option ℚ) (cutoff : ℤ) :
    ∀ (n a e : ℕ), e + 1 < epochsRunFrom valLoss cutoff a n →
      broke valLoss cutoff (a + e) = false := by
  intro n
  induction n with
  | zero => intro a e h; simp [epochsRunFrom] at h
  | succ n ih =>
      intro a e h
      cases hb : broke valLoss cutoff a with
      | true => simp [epochsRunFrom, hb] at h
      | false =>
          cases e with
          | zero => simpa using hb
          | succ e =>
              have h' : e + 1 < epochsRunFrom valLoss cutoff (a + 1) n := by
                simp [epochsRunFrom, hb] at h
                omega
              have := ih (a + 1) e h'
              have harith : a + 1 + e = a + (e + 1) := by omega
              rw [harith] at this
              exact this

/-- If the loop stopped before exhausting the epoch range, the break
condition fired at its last epoch. -/
theorem broke_at_stop (valLoss : ℕ → Option ℚ) (cutoff : ℤ) :
    ∀ (n a : ℕ), epochsRunFrom valLoss cutoff a n < n →
      broke valLoss cutoff (a + (epochsRunFrom valLoss cutoff a n - 1)) = true := by
  intro n
  induction n with
  | zero => intro a h; simp [epochsRunFrom] at h
  | succ n ih =>
      intro a h
      cases hb : broke valLoss cutoff a with
      | true => simpa [epochsRunFrom, hb] using hb
      | false =>
          have hr : epochsRunFrom valLoss cutoff (a + 1) n < n := by
            simp [epochsRunFrom, hb] at h
            omega
          have hpos : 0 < epochsRunFrom valLoss cutoff (a + 1) n :=
            epochsRunFrom_pos valLoss cutoff (a + 1) n (by omega)
          have := ih (a + 1) hr
          have harith : a + 1 + (epochsRunFrom valLoss cutoff (a + 1) n - 1) =
              a + (1 + epochsRunFrom valLoss cutoff (a + 1) n - 1) := by omega
          rw [harith] at this
          simpa [epochsRunFrom, hb] using this

theorem lookup_append_pairs (k : ℤ) :
    ∀ l₁ l₂ : List (ℤ × String), (l₁ ++ l₂).lookup k =
      (match l₁.lookup k with
       | some v => some v
       | none => l₂.lookup k) := by
  intro l₁ l₂
  induction l₁ with
  | nil => rfl
  | cons p t ih =>
      cases hk : k == p.1 with
      | true => simp [List.lookup, hk]
      | false => simp [List.lookup, hk, ih]

theorem ckptMap_succ (n : ℕ) :
    ckptMap (n + 1) = ckptMap n ++ [((n : ℤ), modelPath n)] := by
  rw [ckptMap, ckptMap, List.range_succ, List.map_append]
  rfl

/-- The sentinel `-1` is never a key of the checkpoint map. -/
theorem lookup_ckptMap_neg : ∀ n : ℕ, (ckptMap n).lookup (-1 : ℤ) = none := by
  intro n
  induction n with
  | zero => rfl
  | succ n ih =>
      rw [ckptMap_succ, lookup_append_pairs, ih]
      have hne : ((-1 : ℤ) == (n : ℤ)) = false := by
        simp only [beq_eq_false_iff_ne, ne_eq]
        omega
      simp [List.lookup, hne]

/-- A key at or above `n` is not in the checkpoint map of `n` epochs. -/
theorem lookup_ckptMap_ge (b : ℕ) :
    ∀ n : ℕ, n ≤ b → (ckptMap n).lookup (b : ℤ) = none := by
  intro n
  induction n with
  | zero => intro _; rfl
  | succ n ih =>
      intro hb
      rw [ckptMap_succ, lookup_append_pairs, ih (by omega)]
      have hne : ((b : ℤ) == (n : ℤ)) = false := by
        simp only [beq_eq_false_iff_ne, ne_eq]
        intro hc
        omega
      simp [List.lookup, hne]

/-- Every run epoch is in the checkpoint map with its own path. -/
theorem lookup_ckptMap (b : ℕ) :
    ∀ n : ℕ, b < n → (ckptMap n).lookup (b : ℤ) = some (modelPath b) := by
  intro n
  induction n with
  | zero => omega
  | succ n ih =>
      intro hb
      rw [ckptMap_succ, lookup_append_pairs]
      rcases Nat.lt_succ_iff_lt_or_eq.mp hb with h | h
      · rw [ih h]
      · subst h
        rw [lookup_ckptMap_ge b b (le_refl b)]
        simp [List.lookup]

/-- If no validation loss ever falls below the `1e4` sentinel, the best
index and best loss keep their initial sentinel values forever. -/
theorem sentinel_keeps (valLoss : ℕ → Option ℚ)
    (hno : ∀ e x, valLoss e = some x → 10000 ≤ x) :
    ∀ n : ℕ, (stAfter valLoss n).current_best_epoch_idx = -1
      ∧ (stAfter valLoss n).current_best_loss_val = 10000 := by
  intro n
  induction n with
  | zero => exact ⟨rfl, rfl⟩
  | succ n ih =>
      have hi : improv valLoss n = false := by
        cases hv : valLoss n with
        | none => simp [improv, hv]
        | some x =>
            have hx := hno n x hv
            simp [improv, hv, ih.2]
            linarith
      obtain ⟨hkl, hki⟩ := nonimprov_keeps valLoss n hi
      exact ⟨hki.trans ih.1, hkl.trans ih.2⟩

/-! ## Stage A lemmas -/

theorem exceptMap_ok {ε α β : Type} (f : α → Except ε β) :
    ∀ l : List α, (∀ x ∈ l, ∃ y, f x = .ok y) →
      ∃ ys, exceptMap f l = .ok ys
        ∧ List.Forall₂ (fun x y => f x = .ok y) l ys := by
  intro l
  induction l with
  | nil => intro _; exact ⟨[], rfl, List.Forall₂.nil⟩
  | cons x xs ih =>
      intro h
      obtain ⟨y, hy⟩ := h x (List.mem_cons_self x xs)
      obtain ⟨ys, hys, hrel⟩ := ih (fun z hz => h z (List.mem_cons_of_mem x hz))
      refine ⟨y :: ys, ?_, List.Forall₂.cons hy hrel⟩
      simp [exceptMap, hy, hys, Bind.bind, Except.bind, pure, Except.pure]

theorem forallTwo_mem_right {α β : Type} {R : α → β → Prop} :
    ∀ {l : List α} {ys : List β}, List.Forall₂ R l ys →
      ∀ y ∈ ys, ∃ x ∈ l, R x y := by
  intro l ys h
  induction h with
  | nil => intro y hy; simp at hy
  | @cons a b l' ys' hr _ ih =>
      intro y hy
      rcases List.mem_cons.mp hy with h1 | h2
      · exact ⟨a, List.mem_cons_self a l', h1 ▸ hr⟩
      · obtain ⟨x, hx, hPx⟩ := ih y h2
        exact ⟨x, List.mem_cons_of_mem a hx, hPx⟩

/-- Counting surviving rows: with `NaN`-free `extra` columns, exactly the
lookup misses are dropped by `dropna`, and every survivor comes from the
input table. -/
theorem stage2_count (lk : String → Option (String → Option ρ)) (k : String) :
    ∀ (rows : List MutRow) (resenvs : List (Option ρ)),
      List.Forall₂ (fun r v => rowResenv lk k r = .ok v) rows resenvs →
      (∀ r ∈ rows, r.extra.all Option.isSome = true) →
      ((rows.zip resenvs).filterMap (fun p => keepRow p.1 p.2)).length
          + nLookupMisses lk k rows = rows.length
      ∧ ∀ q ∈ (rows.zip resenvs).filterMap (fun p => keepRow p.1 p.2),
          q.1 ∈ rows := by
  intro rows resenvs hrel
  induction hrel with
  | nil => intro _; exact ⟨rfl, by simp⟩
  | @cons r v rows' resenvs' hr _ht ih =>
      intro hex
      obtain ⟨ih1, ih2⟩ := ih (fun z hz => hex z (List.mem_cons_of_mem r hz))
      have hexr : r.extra.all Option.isSome = true :=
        hex r (List.mem_cons_self r rows')
      cases v with
      | some e =>
          have hkeep : keepRow r (some e) = some (r, e) := by
            simp [keepRow, hexr]
          have hmiss : isLookupMiss lk k r = false := by
            simp [isLookupMiss, hr]
          constructor
          · simp only [List.zip_cons_cons, List.filterMap_cons, hkeep,
              nLookupMisses, List.filter_cons, hmiss]
            simp only [nLookupMisses] at ih1
            simp only [List.length_cons, Bool.false_eq_true, if_false]
            omega
          · intro q hq
            simp only [List.zip_cons_cons, List.filterMap_cons, hkeep] at hq
            rcases List.mem_cons.mp hq with h1 | h2
            · rw [h1]; exact List.mem_cons_self r rows'
            · exact List.mem_cons_of_mem r (ih2 q h2)
      | none =>
          have hkeep : keepRow r (none : Option ρ) = none := rfl
          have hmiss : isLookupMiss lk k r = true := by
            simp [isLookupMiss, hr]
          constructor
          · simp only [List.zip_cons_cons, List.filterMap_cons, hkeep,
              nLookupMisses, List.filter_cons, hmiss]
            simp only [nLookupMisses] at ih1
            simp only [List.length_cons, if_true]
            omega
          · intro q hq
            simp only [List.zip_cons_cons, List.filterMap_cons, hkeep] at hq
            exact List.mem_cons_of_mem r (ih2 q hq)

theorem indexIn_lt (c : Char) :
    ∀ (l : List Char) (i : ℕ), indexIn c l = some i → i < l.length := by
  intro l
  induction l with
  | nil => intro i h; simp [indexIn] at h
  | cons d ds ih =>
      intro i h
      by_cases hd : d = c
      · simp [indexIn, hd] at h
        simp [← h]
      · simp [indexIn, hd] at h
        obtain ⟨j, hj, hji⟩ := h
        have := ih j hj
        simp only [List.length_cons]
        omega

theorem one_to_index_le (c : Char) (i : ℕ) (h : one_to_index c = some i) :
    i ≤ 19 := by
  have hlt := indexIn_lt c aa1 i h
  have hlen : aa1.length = 20 := rfl
  omega

/-- The indices `scoreRow` produces always lie in the 20-letter range. -/
theorem rowIdxs_bounds (r : MutRow) (p : ℕ × ℕ) (h : rowIdxs r = .ok p) :
    p.1 ≤ 19 ∧ p.2 ≤ 19 := by
  unfold rowIdxs at h
  cases hf : pyFirstChar r.variant with
  | error e => rw [hf] at h; simp [Bind.bind, Except.bind] at h
  | ok wt =>
      rw [hf] at h
      cases hl : pyLastChar r.variant with
      | error e => rw [hl] at h; simp [Bind.bind, Except.bind] at h
      | ok mt =>
          rw [hl] at h
          simp only [Bind.bind, Except.bind] at h
          cases hw : one_to_index wt with
          | none =>
              rw [hw] at h
              cases hm : one_to_index mt <;> rw [hm] at h <;> simp at h
          | some wi =>
              cases hm : one_to_index mt with
              | none => rw [hw, hm] at h; simp at h
              | some mi =>
                  rw [hw, hm] at h
                  simp only [pure, Except.pure, Except.ok.injEq] at h
                  rw [← h]
                  exact ⟨one_to_index_le wt wi hw, one_to_index_le mt mi hm⟩

theorem rowIdxs_of_ok (r : MutRow) (h : rowIdxsOk r = true) :
    ∃ p, rowIdxs r = .ok p := by
  cases hri : rowIdxs r with
  | ok p => exact ⟨p, rfl⟩
  | error e => rw [rowIdxsOk, hri] at h; simp at h

/-- A row whose index computation succeeds has a non-empty variant, so its
key construction and environment lookup cannot raise. -/
theorem rowResenv_ok (lk : String → Option (String → Option ρ)) (k : String)
    (r : MutRow) (h : rowIdxsOk r = true) :
    ∃ v, rowResenv lk k r = .ok v := by
  cases hf : pyFirstChar r.variant with
  | error e =>
      exfalso
      have hri : rowIdxs r = .error e := by
        rw [rowIdxs, hf]
        rfl
      rw [rowIdxsOk, hri] at h
      simp at h
  | ok c =>
      have hd : r.variant.data.head? = some c := by
        unfold pyFirstChar at hf
        cases hh : r.variant.data.head? <;> rw [hh] at hf
        · cases hf
        · simpa using hf
      exact ⟨(lk (adhocFixKey k)).bind
          (fun ds => ds (r.pdbid ++ r.chainid ++ "_" ++ pySlice1toNeg1 r.variant ++ ⟨[c]⟩)),
        by simp only [rowResenv, resenvKey, hd]⟩

/-! ## Theorems -/

/-- C1: for every surviving ddG record, the baseline statistic
`ddg_pred_no_ds` computed on line 292 of `helpers.py` equals
`(mt_nll - mt_nlf) - (wt_nll - wt_nlf)`, and on the concrete inputs
`wt_nll = 2.0`, `mt_nll = 3.5`, `wt_nlf = 1.0`, `mt_nlf = 1.2` it equals
`1.3`. -/
theorem C1_ddg_pred_no_ds_formula :
    (∀ wt_nll mt_nll wt_nlf mt_nlf : ℚ,
      ddg_pred_no_ds wt_nll mt_nll wt_nlf mt_nlf =
        (mt_nll - mt_nlf) - (wt_nll - wt_nlf))
    ∧ ddg_pred_no_ds 2.0 3.5 1.0 1.2 = 1.3 := by
  refine ⟨fun a b c d => ?_, by norm_num [ddg_pred_no_ds]⟩
  unfold ddg_pred_no_ds
  ring

/-- C2: the environment-lookup key built on lines 202-205 of `helpers.py`
is the concatenation of `pdbid`, `chainid`, an underscore, all characters
of the variant string except the first and the last, and the first
(wild-type) letter of the variant; for variant `"A123G"`, pdbid `"1ABC"`,
chain `"A"` the key is `"1ABCA_123A"`. -/
theorem C2_resenv_key (pdbid chainid variant : String) (h : variant ≠ "") :
    resenvKey pdbid chainid variant =
      some (pdbid ++ chainid ++ "_" ++ ⟨(variant.data.drop 1).dropLast⟩
        ++ ⟨variant.data.take 1⟩)
    ∧ resenvKey "1ABC" "A" "A123G" = some "1ABCA_123A" := by
  refine ⟨?_, rfl⟩
  obtain ⟨c, cs, hd⟩ : ∃ c cs, variant.data = c :: cs := by
    cases hv : variant.data with
    | nil =>
        exfalso
        apply h
        cases variant with
        | mk data =>
            simp only at hv
            subst hv
            rfl
    | cons c cs => exact ⟨c, cs, rfl⟩
  simp [resenvKey, pySlice1toNeg1, hd]

/-- C2 witness: the key construction evaluated on the concrete example of
the specification. -/
theorem C2_resenv_key_witness :
    resenvKey "1ABC" "A" "A123G" =
      some ("1ABC" ++ "A" ++ "_" ++ ⟨("A123G".data.drop 1).dropLast⟩
        ++ ⟨"A123G".data.take 1⟩) :=
  (C2_resenv_key "1ABC" "A" "A123G" (by decide)).1

/-- C6: for every non-empty ordered filename list and split fraction, the
two groups returned by `_train_val_split` partition the input —
concatenating them gives back the input list (so the relative order is
preserved and the lengths add up), and for a non-negative fraction the
train group is exactly the first `int(len * fraction)` filenames. -/
theorem C6_train_val_split (parsed_pdb_filenames : List String)
    (TRAIN_VAL_SPLIT : ℚ) (hne : parsed_pdb_filenames ≠ []) :
    (_train_val_split parsed_pdb_filenames TRAIN_VAL_SPLIT).1 ++
      (_train_val_split parsed_pdb_filenames TRAIN_VAL_SPLIT).2 =
        parsed_pdb_filenames
    ∧ (_train_val_split parsed_pdb_filenames TRAIN_VAL_SPLIT).1.length +
        (_train_val_split parsed_pdb_filenames TRAIN_VAL_SPLIT).2.length =
          parsed_pdb_filenames.length
    ∧ (0 ≤ TRAIN_VAL_SPLIT →
        (_train_val_split parsed_pdb_filenames TRAIN_VAL_SPLIT).1 =
          parsed_pdb_filenames.take
            (pyInt ((parsed_pdb_filenames.length : ℚ) * TRAIN_VAL_SPLIT)).toNat) := by
  have hcat : (_train_val_split parsed_pdb_filenames TRAIN_VAL_SPLIT).1 ++
      (_train_val_split parsed_pdb_filenames TRAIN_VAL_SPLIT).2 =
        parsed_pdb_filenames := by
    unfold _train_val_split pySliceTo pySliceFrom
    by_cases h0 : (0 : ℤ) ≤ pyInt ((parsed_pdb_filenames.length : ℚ) * TRAIN_VAL_SPLIT) <;>
      simp [h0, List.take_append_drop]
  refine ⟨hcat, ?_, ?_⟩
  · have := congrArg List.length hcat
    simpa using this
  · intro hf
    have hq : (0 : ℚ) ≤ (parsed_pdb_filenames.length : ℚ) * TRAIN_VAL_SPLIT :=
      mul_nonneg (by positivity) hf
    have h0 : (0 : ℤ) ≤ pyInt ((parsed_pdb_filenames.length : ℚ) * TRAIN_VAL_SPLIT) := by
      unfold pyInt
      simp [hq]
      exact Int.floor_nonneg.mpr hq
    unfold _train_val_split pySliceTo
    simp [h0]

/-- C6 witness: the split of a concrete three-element list at fraction
`1/2` — the groups concatenate to the input, the lengths add up, and the
train group is the first `int(3 * (1/2)) = 1` filenames. -/
theorem C6_train_val_split_witness :
    (_train_val_split ["a", "b", "c"] (1/2)).1 ++
      (_train_val_split ["a", "b", "c"] (1/2)).2 = ["a", "b", "c"]
    ∧ (_train_val_split ["a", "b", "c"] (1/2)).1.length +
        (_train_val_split ["a", "b", "c"] (1/2)).2.length = 3
    ∧ (0 ≤ (1/2 : ℚ) →
        (_train_val_split ["a", "b", "c"] (1/2)).1 =
          ["a", "b", "c"].take (pyInt ((3 : ℚ) * (1/2))).toNat) := by
  have h := C6_train_val_split ["a", "b", "c"] (1/2) (by decide)
  refine ⟨h.1, by simpa using h.2.1, ?_⟩
  intro hf
  have := h.2.2 hf
  simpa using this

/-- The sum of a 0/1 indicator list is the number of elements passing the
test. -/
theorem sum_indicator (p : β → Bool) (l : List β) :
    (l.map (fun x => if p x then (1 : ℚ) else 0)).sum = ((l.filter p).length : ℚ) := by
  induction l with
  | nil => simp
  | cons x xs ih =>
      by_cases hx : p x <;> simp [List.filter_cons, hx, ih, add_comm]

/-- The accuracy of `_eval_loop` in closed form: the number of agreeing
positions over the total number of evaluated labels. -/
theorem eval_acc_closed_form (net target : α → ℕ) (batchLoss : List α → ℚ)
    (batches : List (List α)) (hne : batches.flatten ≠ []) :
    (_eval_loop net target batchLoss batches).1 =
      some ((nCorrect (batches.flatten.map target) (batches.flatten.map net) : ℚ) /
        (batches.flatten.length : ℚ)) := by
  have hmt : (batches.map (fun b => b.map target)).flatten = batches.flatten.map target :=
    (List.map_flatten target batches).symm
  have hmn : (batches.map (fun b => b.map net)).flatten = batches.flatten.map net :=
    (List.map_flatten net batches).symm
  have hlen : ((batches.flatten.map target).zip (batches.flatten.map net)).length =
      batches.flatten.length := by
    rw [List.length_zip, List.length_map, List.length_map, min_self]
  have hlen0 : batches.flatten.length ≠ 0 := fun h => hne (List.length_eq_zero.mp h)
  simp only [_eval_loop, hmt, hmn]
  rw [npMean]
  simp only [List.length_map, hlen]
  rw [if_neg hlen0]
  rw [sum_indicator]
  simp [nCorrect, hlen]

/-- C7: the eval-loop accuracy (lines 112-114 of `helpers.py`) is the
micro-average `correct_flattened / total_flattened` over the whole
evaluated label stream, and any two batchings of the same sample stream
(the same concatenation, i.e. the same drop-last policy) yield the same
accuracy regardless of batch size. -/
theorem C7_eval_loop_accuracy (net target : α → ℕ)
    (batchLoss batchLoss' : List α → ℚ) (batches batches' : List (List α))
    (hjoin : batches.flatten = batches'.flatten)
    (hne : batches.flatten ≠ []) :
    (_eval_loop net target batchLoss batches).1 =
      some ((nCorrect (batches.flatten.map target) (batches.flatten.map net) : ℚ) /
        (batches.flatten.length : ℚ))
    ∧ (_eval_loop net target batchLoss batches).1 =
        (_eval_loop net target batchLoss' batches').1 := by
  refine ⟨eval_acc_closed_form net target batchLoss batches hne, ?_⟩
  rw [eval_acc_closed_form net target batchLoss batches hne,
    eval_acc_closed_form net target batchLoss' batches' (hjoin ▸ hne), hjoin]

/-- C7 witness: two batchings of the same four samples — batch size 2
versus batch sizes 1 and 3 — with concrete predicted and true labels. -/
theorem C7_eval_loop_accuracy_witness :
    ([[0, 1], [2, 3]] : List (List ℕ)).flatten = ([[0], [1, 2, 3]] : List (List ℕ)).flatten
    ∧ ([[0, 1], [2, 3]] : List (List ℕ)).flatten ≠ []
    ∧ ((_eval_loop (fun n => n % 2) (fun n => n % 3) (fun _ => 0) [[0, 1], [2, 3]]).1 =
        some ((nCorrect (([[0, 1], [2, 3]] : List (List ℕ)).flatten.map (fun n => n % 3))
            (([[0, 1], [2, 3]] : List (List ℕ)).flatten.map (fun n => n % 2)) : ℚ) /
          ((([[0, 1], [2, 3]] : List (List ℕ)).flatten.length : ℚ)))
      ∧ (_eval_loop (fun n => n % 2) (fun n => n % 3) (fun _ => 0) [[0, 1], [2, 3]]).1 =
          (_eval_loop (fun n => n % 2) (fun n => n % 3) (fun _ => 1) [[0], [1, 2, 3]]).1) :=
  ⟨by decide, by decide,
    C7_eval_loop_accuracy (fun n => n % 2) (fun n => n % 3) (fun _ => 0) (fun _ => 1)
      [[0, 1], [2, 3]] [[0], [1, 2, 3]] (by decide) (by decide)⟩

/-- C3 counterexample: a one-row table with NO lookup miss (`K = 0`) whose
row carries a `NaN` in another column — `dropna` on line 217 of
`helpers.py` drops it anyway, so the output has `0` rows instead of the
claimed `N - K = 1`. -/
theorem C3_counterexample :
    nLookupMisses lkC3 "ds" [rowC3] = 0
    ∧ populateDataset lkC3 "ds" [rowC3] = .ok []
    ∧ ¬ ∃ out : List (ARow ℕ), populateDataset lkC3 "ds" [rowC3] = .ok out
        ∧ out.length = [rowC3].length - nLookupMisses lkC3 "ds" [rowC3] := by
  refine ⟨rfl, rfl, ?_⟩
  rintro ⟨out, h1, h2⟩
  have h3 : populateDataset lkC3 "ds" [rowC3] = Except.ok ([] : List (ARow ℕ)) := rfl
  have h4 : out = [] := Except.ok.inj (h1.symm.trans h3)
  rw [h4] at h2
  exact absurd h2 (by decide)

/-- C3 (amended): for a mutation table whose rows carry no `NaN` in the
other columns and whose variant strings are non-empty with first and last
letters in the 20-letter alphabet, Stage A keeps exactly the `N - K` rows
whose environment lookup hits, and every surviving row has `wt_idx` and
`mt_idx` in `[0, 19]`. -/
theorem C3_stageA_rows {ρ : Type} (lk : String → Option (String → Option ρ))
    (k : String) (rows : List MutRow)
    (hextra : ∀ r ∈ rows, r.extra.all Option.isSome = true)
    (hvar : ∀ r ∈ rows, rowIdxsOk r = true) :
    ∃ out, populateDataset lk k rows = .ok out
      ∧ out.length + nLookupMisses lk k rows = rows.length
      ∧ ∀ a ∈ out, a.wt_idx ≤ 19 ∧ a.mt_idx ≤ 19 := by
  obtain ⟨resenvs, hres, hrel⟩ := exceptMap_ok (rowResenv lk k) rows
    (fun r hr => rowResenv_ok lk k r (hvar r hr))
  obtain ⟨hcount, hmem⟩ := stage2_count lk k rows resenvs hrel hextra
  obtain ⟨out, hout, hrel2⟩ := exceptMap_ok scoreRow
    ((rows.zip resenvs).filterMap (fun p => keepRow p.1 p.2))
    (fun q hq => by
      obtain ⟨p, hp⟩ := rowIdxs_of_ok q.1 (hvar q.1 (hmem q hq))
      exact ⟨⟨q.1, q.2, p.1, p.2⟩,
        by simp [scoreRow, hp, Bind.bind, Except.bind, pure, Except.pure]⟩)
  refine ⟨out, ?_, ?_, ?_⟩
  · simp only [populateDataset, Bind.bind, Except.bind, hres]
    exact hout
  · have hl : ((rows.zip resenvs).filterMap (fun p => keepRow p.1 p.2)).length
        = out.length := List.Forall₂.length_eq hrel2
    omega
  · intro a ha
    obtain ⟨q, hqS, hq⟩ := forallTwo_mem_right hrel2 a ha
    obtain ⟨p, hp⟩ := rowIdxs_of_ok q.1 (hvar q.1 (hmem q hqS))
    have hbounds := rowIdxs_bounds q.1 p hp
    have ha' : a = ⟨q.1, q.2, p.1, p.2⟩ := by
      rw [scoreRow, hp] at hq
      simp only [Bind.bind, Except.bind, pure, Except.pure, Except.ok.injEq] at hq
      exact hq.symm
    rw [ha']
    exact hbounds

/-- C3 witness: a table of two `NaN`-free rows, one lookup hit and one
lookup miss — the output has exactly `2 - 1 = 1` row with indices in
range. -/
theorem C3_stageA_rows_witness :
    (∀ r ∈ [(⟨"1ABC", "A", "A1G", []⟩ : MutRow), ⟨"1ABC", "A", "C2W", []⟩],
      r.extra.all Option.isSome = true)
    ∧ (∀ r ∈ [(⟨"1ABC", "A", "A1G", []⟩ : MutRow), ⟨"1ABC", "A", "C2W", []⟩],
      rowIdxsOk r = true)
    ∧ ∃ out, populateDataset lkC3 "ds"
        [⟨"1ABC", "A", "A1G", []⟩, ⟨"1ABC", "A", "C2W", []⟩] = .ok out
      ∧ out.length + nLookupMisses lkC3 "ds"
          [⟨"1ABC", "A", "A1G", []⟩, ⟨"1ABC", "A", "C2W", []⟩] =
          ([(⟨"1ABC", "A", "A1G", []⟩ : MutRow), ⟨"1ABC", "A", "C2W", []⟩]).length
      ∧ ∀ a ∈ out, a.wt_idx ≤ 19 ∧ a.mt_idx ≤ 19 :=
  ⟨by decide, by decide,
    C3_stageA_rows lkC3 "ds" [⟨"1ABC", "A", "A1G", []⟩, ⟨"1ABC", "A", "C2W", []⟩]
      (by decide) (by decide)⟩

/-- The per-dataset Stage A processing depends on the lookup dictionary
only through the value at the normalized dataset name. -/
theorem populateDataset_congr {ρ : Type}
    (lkA lkB : String → Option (String → Option ρ)) (k : String)
    (rows : List MutRow) (h : lkA (adhocFixKey k) = lkB (adhocFixKey k)) :
    populateDataset lkA k rows = populateDataset lkB k rows := by
  have hfun : rowResenv lkA k = rowResenv lkB k := by
    funext r
    unfold rowResenv
    rw [h]
  simp only [populateDataset, hfun]

/-- C8: a dataset name containing the substring `"symmetric"` is resolved
against the shared `"symmetric"` environment lookup — Stage A cannot
distinguish two dictionaries that agree at `"symmetric"` — while any other
dataset name resolves against the lookup under its own name; the
normalization is substring containment, not equality. -/
theorem C8_symmetric_normalization {ρ : Type}
    (lkA lkB : String → Option (String → Option ρ)) (k : String)
    (rows : List MutRow) :
    (containsSub "symmetric" k = true → lkA "symmetric" = lkB "symmetric" →
      populateDataset lkA k rows = populateDataset lkB k rows)
    ∧ (containsSub "symmetric" k = false → lkA k = lkB k →
      populateDataset lkA k rows = populateDataset lkB k rows)
    ∧ adhocFixKey "ddg_symmetric_v2" = "symmetric"
    ∧ adhocFixKey "protein_g" = "protein_g" := by
  refine ⟨?_, ?_, rfl, rfl⟩
  · intro hk hl
    apply populateDataset_congr
    have hfix : adhocFixKey k = "symmetric" := by simp [adhocFixKey, hk]
    rw [hfix]
    exact hl
  · intro hk hl
    apply populateDataset_congr
    have hfix : adhocFixKey k = k := by simp [adhocFixKey, hk]
    rw [hfix]
    exact hl

/-- C8 witness: the dataset name `"myds_symmetric"` (which merely contains
the substring) is processed identically under two dictionaries agreeing
only at `"symmetric"`, and the plain name `"guerois"` identically under
two dictionaries agreeing only at `"guerois"`. -/
theorem C8_symmetric_normalization_witness :
    containsSub "symmetric" "myds_symmetric" = true
    ∧ lkAw "symmetric" = lkBw "symmetric"
    ∧ populateDataset lkAw "myds_symmetric" rowsW =
        populateDataset lkBw "myds_symmetric" rowsW
    ∧ containsSub "symmetric" "guerois" = false
    ∧ populateDataset lkCw "guerois" rowsW = populateDataset lkDw "guerois" rowsW :=
  ⟨by decide, rfl,
    (C8_symmetric_normalization lkAw lkBw "myds_symmetric" rowsW).1 (by decide) rfl,
    by decide,
    (C8_symmetric_normalization lkCw lkDw "guerois" rowsW).2.1 (by decide) rfl⟩

/-- C4: the epoch loop of `_train_loop` follows the epoch trace and
terminates exactly when the patience counter exceeds the cutoff: a
strictly improving validation loss resets patience to `0`, any
non-improving epoch increments it, the loop never runs past a fired break,
an early stop happens only with a fired break, and with cutoff `0` the
loop stops right after the first non-improving epoch. -/
theorem C4_early_stopping (valLoss : ℕ → Option ℚ) (EPOCHS : ℕ)
    (PATIENCE_CUTOFF : ℤ) :
    runEpochs valLoss PATIENCE_CUTOFF 0 EPOCHS initTLState =
      stAfter valLoss (epochsRun valLoss PATIENCE_CUTOFF EPOCHS)
    ∧ (∀ e, improv valLoss e = true → (stAfter valLoss (e + 1)).patience = 0)
    ∧ (∀ e, improv valLoss e = false →
        (stAfter valLoss (e + 1)).patience = (stAfter valLoss e).patience + 1)
    ∧ epochsRun valLoss PATIENCE_CUTOFF EPOCHS ≤ EPOCHS
    ∧ (∀ e, e + 1 < epochsRun valLoss PATIENCE_CUTOFF EPOCHS →
        broke valLoss PATIENCE_CUTOFF e = false)
    ∧ (epochsRun valLoss PATIENCE_CUTOFF EPOCHS < EPOCHS →
        broke valLoss PATIENCE_CUTOFF
          (epochsRun valLoss PATIENCE_CUTOFF EPOCHS - 1) = true)
    ∧ (PATIENCE_CUTOFF = 0 →
        (∀ e, e + 1 < epochsRun valLoss PATIENCE_CUTOFF EPOCHS →
          improv valLoss e = true)
        ∧ (epochsRun valLoss PATIENCE_CUTOFF EPOCHS < EPOCHS →
            improv valLoss (epochsRun valLoss PATIENCE_CUTOFF EPOCHS - 1) = false)) := by
  refine ⟨finalState_eq valLoss PATIENCE_CUTOFF EPOCHS,
    fun e hi => (patience_step valLoss e).1 hi,
    fun e hi => (patience_step valLoss e).2 hi,
    epochsRunFrom_le valLoss PATIENCE_CUTOFF EPOCHS 0,
    ?_, ?_, ?_⟩
  · intro e he
    have := not_broke_of_running valLoss PATIENCE_CUTOFF EPOCHS 0 e he
    simpa using this
  · intro hlt
    have := broke_at_stop valLoss PATIENCE_CUTOFF EPOCHS 0 hlt
    simpa [epochsRun] using this
  · intro hc
    subst hc
    constructor
    · intro e he
      have hb : broke valLoss 0 e = false := by
        simpa using not_broke_of_running valLoss 0 EPOCHS 0 e he
      have hp0 : (stAfter valLoss (e + 1)).patience = 0 := by
        have hp : ¬ (0 : ℤ) < ((stAfter valLoss (e + 1)).patience : ℤ) := by
          simpa [broke] using hb
        omega
      cases hi : improv valLoss e with
      | true => rfl
      | false =>
          have := (patience_step valLoss e).2 hi
          omega
    · intro hlt
      have hb : broke valLoss 0 (epochsRun valLoss 0 EPOCHS - 1) = true := by
        simpa [epochsRun] using broke_at_stop valLoss 0 EPOCHS 0 hlt
      have hp : (0 : ℤ) < ((stAfter valLoss (epochsRun valLoss 0 EPOCHS - 1 + 1)).patience : ℤ) := by
        simpa [broke] using hb
      cases hi : improv valLoss (epochsRun valLoss 0 EPOCHS - 1) with
      | true =>
          have := (patience_step valLoss (epochsRun valLoss 0 EPOCHS - 1)).1 hi
          omega
      | false => rfl

/-- C4 witness: the early-stopping characterization exercised on
`vLossW` with 5 scheduled epochs and cutoff 0 — epoch 0 improves and
resets patience, epoch 1 does not improve and increments patience, the
break fires, and the loop runs exactly 2 of the 5 epochs. -/
theorem C4_early_stopping_witness :
    improv vLossW 0 = true
    ∧ (stAfter vLossW 1).patience = 0
    ∧ improv vLossW 1 = false
    ∧ (stAfter vLossW 2).patience = (stAfter vLossW 1).patience + 1
    ∧ epochsRun vLossW 0 5 = 2
    ∧ broke vLossW 0 0 = false
    ∧ broke vLossW 0 (epochsRun vLossW 0 5 - 1) = true
    ∧ improv vLossW (epochsRun vLossW 0 5 - 1) = false := by
  obtain ⟨_hsim, ha, hb, _hc, hd, he, hg⟩ := C4_early_stopping vLossW 5 0
  exact ⟨by decide, ha 0 (by decide), by decide, hb 1 (by decide), by decide,
    hd 0 (by decide), he (by decide), (hg rfl).2 (by decide)⟩

/-- C5: the best validation loss recorded by `_train_loop` is monotonically
non-increasing across epochs, and whenever some run epoch improved on the
sentinel, the loop returns the checkpoint path of a run epoch whose
validation loss equals the recorded best, which is a lower bound on every
validation loss observed during the run. -/
theorem C5_best_checkpoint (valLoss : ℕ → Option ℚ) (EPOCHS : ℕ)
    (PATIENCE_CUTOFF : ℤ)
    (himp : ∃ e, e < epochsRun valLoss PATIENCE_CUTOFF EPOCHS
      ∧ improv valLoss e = true) :
    (∀ e, (stAfter valLoss (e + 1)).current_best_loss_val ≤
      (stAfter valLoss e).current_best_loss_val)
    ∧ ∃ b, b < epochsRun valLoss PATIENCE_CUTOFF EPOCHS
        ∧ _train_loop valLoss EPOCHS PATIENCE_CUTOFF = .ok (modelPath b)
        ∧ valLoss b = some ((stAfter valLoss
            (epochsRun valLoss PATIENCE_CUTOFF EPOCHS)).current_best_loss_val)
        ∧ ∀ e x, e < epochsRun valLoss PATIENCE_CUTOFF EPOCHS →
            valLoss e = some x →
            (stAfter valLoss
              (epochsRun valLoss PATIENCE_CUTOFF EPOCHS)).current_best_loss_val ≤ x := by
  refine ⟨fun e => best_mono_succ valLoss e, ?_⟩
  rcases best_idx_inv valLoss (epochsRun valLoss PATIENCE_CUTOFF EPOCHS) with
    ⟨hall, _, _⟩ | ⟨b, hb1, hb2, hb3⟩
  · obtain ⟨e, he, hi⟩ := himp
    rw [hall e he] at hi
    exact absurd hi (by simp)
  · refine ⟨b, hb1, ?_, hb3,
      fun e x he hx =>
        best_le_observed valLoss (epochsRun valLoss PATIENCE_CUTOFF EPOCHS) e he x hx⟩
    simp only [_train_loop, finalState_eq, ckpts_eq, hb2,
      lookup_ckptMap b (epochsRun valLoss PATIENCE_CUTOFF EPOCHS) hb1]

/-- C5 witness: on `vLossW` with 5 scheduled epochs and cutoff 0, epoch 0
improves and the returned checkpoint is the one of the best epoch. -/
theorem C5_best_checkpoint_witness :
    (∃ e, e < epochsRun vLossW 0 5 ∧ improv vLossW e = true)
    ∧ ((∀ e, (stAfter vLossW (e + 1)).current_best_loss_val ≤
        (stAfter vLossW e).current_best_loss_val)
      ∧ ∃ b, b < epochsRun vLossW 0 5
          ∧ _train_loop vLossW 5 0 = .ok (modelPath b)
          ∧ vLossW b = some ((stAfter vLossW (epochsRun vLossW 0 5)).current_best_loss_val)
          ∧ ∀ e x, e < epochsRun vLossW 0 5 → vLossW e = some x →
              (stAfter vLossW (epochsRun vLossW 0 5)).current_best_loss_val ≤ x) :=
  ⟨⟨0, by decide, by decide⟩,
    C5_best_checkpoint vLossW 5 0 ⟨0, by decide, by decide⟩⟩

/-- C10: even when one or more epochs run, if no validation loss is ever
strictly below the `1e4` sentinel (for example every loss is `NaN` or at
least `1e4`), the best-epoch index never leaves `-1` and the final
checkpoint lookup of `_train_loop` fails with a missing-key error — the
zero-epoch precondition is not the only failing input. -/
theorem C10_sentinel_never_updated (valLoss : ℕ → Option ℚ) (EPOCHS : ℕ)
    (PATIENCE_CUTOFF : ℤ) (hE : 1 ≤ EPOCHS)
    (hno : ∀ e x, valLoss e = some x → 10000 ≤ x) :
    (∀ n, (stAfter valLoss n).current_best_epoch_idx = -1)
    ∧ _train_loop valLoss EPOCHS PATIENCE_CUTOFF = .error .keyError := by
  refine ⟨fun n => (sentinel_keeps valLoss hno n).1, ?_⟩
  simp only [_train_loop, finalState_eq, ckpts_eq,
    (sentinel_keeps valLoss hno (epochsRun valLoss PATIENCE_CUTOFF EPOCHS)).1,
    lookup_ckptMap_neg]

/-- C10 witness: two epochs of all-`NaN` validation losses — the loop runs
(EPOCHS = 2 ≥ 1) yet the lookup still fails. -/
theorem C10_sentinel_never_updated_witness :
    (1 : ℕ) ≤ 2
    ∧ (∀ (e : ℕ) (x : ℚ), (fun _ : ℕ => (none : Option ℚ)) e = some x → 10000 ≤ x)
    ∧ ((∀ n, (stAfter (fun _ : ℕ => (none : Option ℚ)) n).current_best_epoch_idx = -1)
      ∧ _train_loop (fun _ : ℕ => (none : Option ℚ)) 2 3 = .error .keyError) :=
  ⟨by decide, ⟨fun _ _ h => by simp at h,
    C10_sentinel_never_updated (fun _ => none) 2 3 (by decide) (fun _ _ h => by simp at h)⟩⟩

/-- C9: if the training loop runs zero epochs, the best-epoch index stays
at the `-1` sentinel and `_train_loop` fails with a missing-key
(`KeyError`) lookup instead of returning a checkpoint path. -/
theorem C9_zero_epochs (valLoss : ℕ → Option ℚ) (PATIENCE_CUTOFF : ℤ) :
    (runEpochs valLoss PATIENCE_CUTOFF 0 0 initTLState).current_best_epoch_idx = -1
    ∧ _train_loop valLoss 0 PATIENCE_CUTOFF = .error .keyError :=
  ⟨rfl, rfl⟩

end CavityModel
